import Mathlib

/-!
# Verification of the Circle-Puzzle interaction core

A shallow embedding of `src/script/puzzle.js`: concentric image rings
(`PUZZLE.PuzzleCircle`), the puzzle controller state built by
`PUZZLE.PuzzleController`, and its three mouse-event handlers.

Modelling choices:
* Cursor coordinates, circle centers and radii are `ℚ` (the source uses JS
  numbers; all branching compares only these quantities, so the embedding
  stays decidable/executable).
* Rotations are `ℝ`, since the source constant `FULL_ROTATION = Math.PI * 2`
  is irrational.  The transition functions take `fullRotation : ℝ` as an
  explicit parameter so the definitions remain computable; every theorem
  instantiates it at the source's value `2 * Real.pi` (or quantifies over it
  when the value is irrelevant).
* The image is an opaque handle (`Nat`), never inspected by the logic.
* `Math.random() * FULL_ROTATION` is modelled by an arbitrary function
  `rots : Nat → ℝ` giving ring `i`'s initial rotation.
* The drawing calls (`this.draw()`) do not touch controller state and are
  omitted.
-/

namespace Puzzle

/-- `PUZZLE.PuzzleCircle`: center `(x, y)`, `radius`, opaque `image` handle,
current `rotation` in radians (puzzle.js lines 149–155). -/
structure PuzzleCircle where
  x : ℚ
  y : ℚ
  radius : ℚ
  image : Nat
  rotation : ℝ

/-- `PUZZLE.PuzzleCircle.prototype.isInside` (puzzle.js lines 162–167):
`xDist = this.x - x; yDist = this.y - y;
return ((xDist*xDist) + (yDist*yDist)) < (this.radius*this.radius)`. -/
def PuzzleCircle.isInside (c : PuzzleCircle) (x y : ℚ) : Bool :=
  decide ((c.x - x) * (c.x - x) + (c.y - y) * (c.y - y) < c.radius * c.radius)

/-- `ROTATION_SPEED = 50` (puzzle.js line 16). -/
def ROTATION_SPEED : ℚ := 50

/-- `PUZZLE.PuzzleController.prototype.rotateCircle` (puzzle.js lines
122–125): `circle.rotation += rotation` (the `draw()` call is stateless). -/
def rotateCircle (circle : PuzzleCircle) (rotation : ℝ) : PuzzleCircle :=
  { circle with rotation := circle.rotation + rotation }

/-- The controller's mutable state: the ring list `this.circles`, the drag
flag `this.isDragging`, the active ring `this.activeCircle` (modelled as an
index into `circles`; in the source it is an object reference) and the
closure variable `lastCursorX` (puzzle.js lines 19–22, 72). -/
structure PuzzleState where
  circles : List PuzzleCircle
  isDragging : Bool
  activeCircle : Option Nat
  lastCursorX : Option ℚ

/-- The construction loop of `PUZZLE.PuzzleController` (puzzle.js lines
42–49): starting from `currRadius = maxRadius`, ring `i` gets radius
`currRadius` and rotation `rots i`, then `currRadius -= radiusDiff`. -/
def mkCircles (centerX centerY : ℚ) (image : Nat) (radiusDiff : ℚ)
    (rots : Nat → ℝ) : Nat → ℚ → Nat → List PuzzleCircle
  | 0, _, _ => []
  | n + 1, currRadius, i =>
      PuzzleCircle.mk centerX centerY currRadius image (rots i) ::
        mkCircles centerX centerY image radiusDiff rots n (currRadius - radiusDiff) (i + 1)

/-- `PUZZLE.PuzzleController` construction (puzzle.js lines 13–52):
`maxRadius = Math.min(canvasWidth, canvasHeight, imageWidth, imageHeight)/2`,
center = canvas center, `radiusDiff = maxRadius/numCircles`, then the ring
loop; drag state starts cleared. -/
def initController (canvasWidth canvasHeight imageWidth imageHeight : ℚ)
    (numCircles : Nat) (rots : Nat → ℝ) (image : Nat) : PuzzleState :=
  let maxRadius := min (min (min canvasWidth canvasHeight) imageWidth) imageHeight / 2
  let centerX := canvasWidth / 2
  let centerY := canvasHeight / 2
  let radiusDiff := maxRadius / (numCircles : ℚ)
  { circles := mkCircles centerX centerY image radiusDiff rots numCircles maxRadius 0
    isDragging := false
    activeCircle := none
    lastCursorX := none }

/-- The `mousedown` scan (puzzle.js lines 61–69): `for(i = length-1; i>=0; i--)
if(circles[i].isInside(x,y)) { ... return; }`.  `findClickedAux circles x y n`
scans indices `n-1, n-2, …, 0` and returns the first (largest) hit index. -/
def findClickedAux (circles : List PuzzleCircle) (x y : ℚ) : Nat → Option Nat
  | 0 => none
  | n + 1 =>
      match circles.get? n with
      | some c => if c.isInside x y then some n else findClickedAux circles x y n
      | none => findClickedAux circles x y n

/-- The `mousedown` handler (puzzle.js lines 57–70): on a hit, set
`activeCircle` and `isDragging = true` and return; otherwise fall off the
loop leaving the state untouched. -/
def handleMouseDown (s : PuzzleState) (x y : ℚ) : PuzzleState :=
  match findClickedAux s.circles x y s.circles.length with
  | some i => { s with activeCircle := some i, isDragging := true }
  | none => s

/-- The `mouseup` handler (puzzle.js lines 75–79):
`isDragging = false; lastCursorX = null`. -/
def handleMouseUp (s : PuzzleState) : PuzzleState :=
  { s with isDragging := false, lastCursorX := none }

/-- The `mousemove` handler (puzzle.js lines 82–114).  Early-returns unless
dragging; the first move only caches `cursorX`; otherwise
`rotation = -( (cursorX - lastCursorX) / ROTATION_SPEED )`, inverted to
`fullRotation - rotation` when `cursorY < activeCircle.y`, is added to the
active circle's rotation and `cursorX` is cached.  The two `none` fallbacks
for the active index are unreachable from the initial state (`isDragging`
is only ever set together with `activeCircle`); the source would throw
there, the model leaves the state unchanged. -/
def handleMouseMove (fullRotation : ℝ) (s : PuzzleState) (cursorX cursorY : ℚ) :
    PuzzleState :=
  if !s.isDragging then s
  else
    match s.lastCursorX with
    | none => { s with lastCursorX := some cursorX }
    | some lastX =>
        match s.activeCircle with
        | none => s
        | some i =>
            match s.circles.get? i with
            | none => s
            | some c =>
                let cursorXDiff : ℚ := cursorX - lastX
                let rotation : ℝ := -((cursorXDiff / ROTATION_SPEED : ℚ) : ℝ)
                let rotation : ℝ :=
                  if cursorY < c.y then fullRotation - rotation else rotation
                { s with
                    circles := s.circles.set i (rotateCircle c rotation)
                    lastCursorX := some cursorX }

/-- A pointer event fed to the controller. -/
inductive PuzzleEvent where
  | mousedown (x y : ℚ)
  | mouseup
  | mousemove (x y : ℚ)

/-- Dispatch one event to its handler. -/
def step (fullRotation : ℝ) (s : PuzzleState) : PuzzleEvent → PuzzleState
  | .mousedown x y => handleMouseDown s x y
  | .mouseup => handleMouseUp s
  | .mousemove x y => handleMouseMove fullRotation s x y

/-- Process a sequence of pointer events in order. -/
def processEvents (fullRotation : ℝ) (s : PuzzleState) : List PuzzleEvent → PuzzleState
  | [] => s
  | e :: es => processEvents fullRotation (step fullRotation s e) es

/-- The construction-time data of one ring: everything except `rotation`. -/
def ringShape (c : PuzzleCircle) : ℚ × ℚ × ℚ × Nat :=
  (c.x, c.y, c.radius, c.image)

/-! ## List helpers -/

lemma get?_lt_length {α : Type} :
    ∀ (l : List α) (n : Nat) (a : α), l.get? n = some a → n < l.length
  | [], n, _, h => by simp [List.get?] at h
  | _ :: _, 0, _, _ => Nat.succ_pos _
  | _ :: t, n + 1, a, h =>
      Nat.succ_lt_succ (get?_lt_length t n a h)

lemma get?_set_self {α : Type} :
    ∀ (l : List α) (n : Nat) (a : α), n < l.length → (l.set n a).get? n = some a
  | [], n, _, h => absurd h (Nat.not_lt_zero n)
  | _ :: _, 0, _, _ => rfl
  | _ :: t, n + 1, a, h => get?_set_self t n a (Nat.lt_of_succ_lt_succ h)

lemma set_of_get?_eq {α : Type} :
    ∀ (l : List α) (n : Nat) (a : α), l.get? n = some a → l.set n a = l
  | [], n, _, h => by simp [List.get?] at h
  | b :: t, 0, a, h => by
      simp only [List.get?] at h
      simp [Option.some.inj h]
  | b :: t, n + 1, a, h => by
      simp only [List.get?] at h
      simp [List.set, set_of_get?_eq t n a h]

lemma get?_map_shape :
    ∀ (l : List PuzzleCircle) (n : Nat) (c : PuzzleCircle), l.get? n = some c →
      (l.map ringShape).get? n = some (ringShape c)
  | [], n, _, h => by simp [List.get?] at h
  | b :: t, 0, c, h => by
      simp only [List.get?] at h
      simp [List.get?, Option.some.inj h]
  | b :: t, n + 1, c, h => by
      simp only [List.get?] at h
      simpa [List.get?] using get?_map_shape t n c h

/-! ## The mousedown scan -/

/-- If no circle with index below `n` contains the point, the scan misses. -/
lemma findClickedAux_eq_none (circles : List PuzzleCircle) (x y : ℚ) :
    ∀ n, (∀ j, j < n → ∀ c, circles.get? j = some c → c.isInside x y = false) →
      findClickedAux circles x y n = none := by
  intro n
  induction n with
  | zero => intro _; rfl
  | succ n ih =>
      intro hmiss
      unfold findClickedAux
      cases hc : circles.get? n with
      | none => exact ih fun j hj c h => hmiss j (Nat.lt_succ_of_lt hj) c h
      | some c =>
          simp only [hmiss n (Nat.lt_succ_self n) c hc, Bool.false_eq_true, if_false]
          exact ih fun j hj c' h => hmiss j (Nat.lt_succ_of_lt hj) c' h

/-- If index `i < n` contains the point and every larger index below `n`
misses, the scan (which walks indices downward) stops exactly at `i`. -/
lemma findClickedAux_eq_some (circles : List PuzzleCircle) (x y : ℚ) :
    ∀ n i c, i < n → circles.get? i = some c → c.isInside x y = true →
      (∀ j, i < j → j < n → ∀ c', circles.get? j = some c' → c'.isInside x y = false) →
      findClickedAux circles x y n = some i := by
  intro n
  induction n with
  | zero => intro i c h; exact absurd h (Nat.not_lt_zero i)
  | succ n ih =>
      intro i c hlt hc hin hmax
      rcases Nat.lt_succ_iff_lt_or_eq.mp hlt with hlt' | rfl
      · unfold findClickedAux
        cases hc' : circles.get? n with
        | none => exact ih i c hlt' hc hin fun j h1 h2 => hmax j h1 (Nat.lt_succ_of_lt h2)
        | some c' =>
            simp only [hmax n hlt' (Nat.lt_succ_self n) c' hc', Bool.false_eq_true, if_false]
            exact ih i c hlt' hc hin fun j h1 h2 => hmax j h1 (Nat.lt_succ_of_lt h2)
      · unfold findClickedAux
        rw [hc]
        simp only [hin, if_true]

/-- `mousedown` is the identity when no circle contains the click point. -/
lemma handleMouseDown_of_miss (s : PuzzleState) (x y : ℚ)
    (hmiss : ∀ j c, s.circles.get? j = some c → c.isInside x y = false) :
    handleMouseDown s x y = s := by
  unfold handleMouseDown
  rw [findClickedAux_eq_none s.circles x y s.circles.length
    fun j _ c h => hmiss j c h]

/-- `mousedown` selects the largest-index circle containing the click point
and starts dragging. -/
lemma handleMouseDown_of_hit (s : PuzzleState) (x y : ℚ) (i : Nat) (c : PuzzleCircle)
    (hc : s.circles.get? i = some c) (hin : c.isInside x y = true)
    (hmax : ∀ j, i < j → ∀ c', s.circles.get? j = some c' → c'.isInside x y = false) :
    handleMouseDown s x y = { s with activeCircle := some i, isDragging := true } := by
  unfold handleMouseDown
  rw [findClickedAux_eq_some s.circles x y s.circles.length i c
    (get?_lt_length s.circles i c hc) hc hin
    fun j h1 _ c' h => hmax j h1 c' h]

/-! ## The mousemove handler -/

/-- `mousemove` early-returns when not dragging. -/
lemma handleMouseMove_not_dragging (fullRotation : ℝ) (s : PuzzleState) (x y : ℚ)
    (h : s.isDragging = false) : handleMouseMove fullRotation s x y = s := by
  simp [handleMouseMove, h]

/-- `mousemove` never changes the drag flag. -/
lemma handleMouseMove_isDragging (fullRotation : ℝ) (s : PuzzleState) (x y : ℚ) :
    (handleMouseMove fullRotation s x y).isDragging = s.isDragging := by
  unfold handleMouseMove
  split
  · rfl
  · split
    · rfl
    · split
      · rfl
      · split
        · rfl
        · rfl

/-! ## Events mutate only rotations -/

lemma shape_set_rotate (l : List PuzzleCircle) (i : Nat) (c : PuzzleCircle) (r : ℝ)
    (hc : l.get? i = some c) :
    (l.set i (rotateCircle c r)).map ringShape = l.map ringShape := by
  have hshape : ringShape (rotateCircle c r) = ringShape c := rfl
  rw [List.map_set, hshape, set_of_get?_eq _ _ _ (get?_map_shape l i c hc)]

/-- A single event handler preserves every circle's center, radius and image. -/
lemma step_shape (fullRotation : ℝ) (s : PuzzleState) (e : PuzzleEvent) :
    (step fullRotation s e).circles.map ringShape = s.circles.map ringShape := by
  cases e with
  | mousedown x y =>
      show (handleMouseDown s x y).circles.map ringShape = _
      unfold handleMouseDown
      cases findClickedAux s.circles x y s.circles.length <;> rfl
  | mouseup => rfl
  | mousemove x y =>
      show (handleMouseMove fullRotation s x y).circles.map ringShape = _
      unfold handleMouseMove
      split
      · rfl
      · split
        · rfl
        · split
          · rfl
          · split
            · rfl
            · rename_i c hc
              exact shape_set_rotate _ _ _ _ hc

lemma processEvents_shape (fullRotation : ℝ) :
    ∀ (es : List PuzzleEvent) (s : PuzzleState),
      (processEvents fullRotation s es).circles.map ringShape = s.circles.map ringShape
  | [], _ => rfl
  | e :: es, s => by
      rw [show processEvents fullRotation s (e :: es)
            = processEvents fullRotation (step fullRotation s e) es from rfl,
        processEvents_shape fullRotation es (step fullRotation s e),
        step_shape]

/-! ## The construction loop -/

lemma mkCircles_length (cX cY : ℚ) (img : Nat) (d : ℚ) (rots : Nat → ℝ) :
    ∀ (n : Nat) (r : ℚ) (i : Nat), (mkCircles cX cY img d rots n r i).length = n
  | 0, _, _ => rfl
  | n + 1, r, i => by
      simp [mkCircles, mkCircles_length cX cY img d rots n (r - d) (i + 1)]

lemma mkCircles_get? (cX cY : ℚ) (img : Nat) (d : ℚ) (rots : Nat → ℝ) :
    ∀ (n : Nat) (r : ℚ) (i j : Nat), j < n →
      (mkCircles cX cY img d rots n r i).get? j =
        some ⟨cX, cY, r - (j : ℚ) * d, img, rots (i + j)⟩
  | 0, _, _, j, h => absurd h (Nat.not_lt_zero j)
  | n + 1, r, i, 0, _ => by
      simp [mkCircles, List.get?]
  | n + 1, r, i, j + 1, h => by
      have ih := mkCircles_get? cX cY img d rots n (r - d) (i + 1) j
        (Nat.lt_of_succ_lt_succ h)
      have h1 : (i + 1) + j = i + (j + 1) := by omega
      have h2 : (r - d) - (j : ℚ) * d = r - ((j + 1 : Nat) : ℚ) * d := by
        push_cast
        ring
      rw [show (mkCircles cX cY img d rots (n + 1) r i).get? (j + 1)
            = (mkCircles cX cY img d rots n (r - d) (i + 1)).get? j from rfl,
        ih, h1, h2]

/-! ## The cached-cursor invariant -/

lemma cacheInv_step (fullRotation : ℝ) (s : PuzzleState) (e : PuzzleEvent)
    (hinv : s.isDragging = false → s.lastCursorX = none) :
    (step fullRotation s e).isDragging = false →
      (step fullRotation s e).lastCursorX = none := by
  cases e with
  | mousedown x y =>
      show (handleMouseDown s x y).isDragging = false →
        (handleMouseDown s x y).lastCursorX = none
      unfold handleMouseDown
      cases hfc : findClickedAux s.circles x y s.circles.length with
      | some i => exact fun hcontra => Bool.noConfusion hcontra
      | none => exact hinv
  | mouseup => exact fun _ => rfl
  | mousemove x y =>
      intro hnot
      have hd : s.isDragging = false := by
        rw [← handleMouseMove_isDragging fullRotation s x y]
        exact hnot
      rw [show step fullRotation s (.mousemove x y)
            = handleMouseMove fullRotation s x y from rfl,
        handleMouseMove_not_dragging fullRotation s x y hd]
      exact hinv hd

lemma cacheInv_processEvents (fullRotation : ℝ) :
    ∀ (es : List PuzzleEvent) (s : PuzzleState),
      (s.isDragging = false → s.lastCursorX = none) →
      (processEvents fullRotation s es).isDragging = false →
      (processEvents fullRotation s es).lastCursorX = none
  | [], _, hinv => hinv
  | e :: es, s, hinv =>
      cacheInv_processEvents fullRotation es (step fullRotation s e)
        (cacheInv_step fullRotation s e hinv)

/-! ## Claims -/

/-- C3: `isInside` is true iff the squared Euclidean distance from the point
to the center is strictly less than the squared radius; a point at distance
exactly the radius is not inside; along a horizontal ray from the center a
point at distance `d` is inside iff `d < radius` (so `radius - ε` is inside
and `radius + ε` is not); and a ring of radius 0 contains no point at all,
including its own center (`px, py` instantiates to it). -/
theorem isInside_strict_disc (c : PuzzleCircle) (px py : ℚ) :
    (c.isInside px py = true ↔
      (c.x - px) * (c.x - px) + (c.y - py) * (c.y - py) < c.radius * c.radius) ∧
    ((c.x - px) * (c.x - px) + (c.y - py) * (c.y - py) = c.radius * c.radius →
      c.isInside px py = false) ∧
    (0 ≤ c.radius → ∀ d : ℚ, 0 ≤ d →
      (c.isInside (c.x + d) c.y = true ↔ d < c.radius)) ∧
    (c.radius = 0 → c.isInside px py = false) := by
  refine ⟨?_, ?_, ?_, ?_⟩
  · simp [PuzzleCircle.isInside]
  · intro heq
    simp [PuzzleCircle.isInside, heq]
  · intro hr d hd
    have hdist : (c.x - (c.x + d)) * (c.x - (c.x + d)) + (c.y - c.y) * (c.y - c.y)
        = d * d := by ring
    simp only [PuzzleCircle.isInside, decide_eq_true_eq, hdist]
    constructor
    · intro hlt
      nlinarith
    · intro hlt
      nlinarith
  · intro h0
    simp only [PuzzleCircle.isInside, h0, mul_zero, decide_eq_false_iff_not, not_lt]
    nlinarith [mul_self_nonneg (c.x - px), mul_self_nonneg (c.y - py)]

/-- Witness for C3 at a ring of center `(5,5)`, radius `3`: distance `2` is
inside, distance `3` (the boundary) is not, distance `4` is not, and a ring
of radius `0` does not contain its own center. -/
theorem isInside_strict_disc_witness :
    (PuzzleCircle.mk 5 5 3 0 0).isInside 7 5 = true ∧
    (PuzzleCircle.mk 5 5 3 0 0).isInside 8 5 = false ∧
    (PuzzleCircle.mk 5 5 3 0 0).isInside 9 5 = false ∧
    (PuzzleCircle.mk 5 5 0 0 0).isInside 5 5 = false := by
  refine ⟨?_, ?_, ?_, ?_⟩
  · have h := (isInside_strict_disc ⟨5, 5, 3, 0, 0⟩ 7 5).2.2.1 (by norm_num) 2 (by norm_num)
    norm_num at h
    exact h
  · exact (isInside_strict_disc ⟨5, 5, 3, 0, 0⟩ 8 5).2.1 (by norm_num)
  · have h := (isInside_strict_disc ⟨5, 5, 3, 0, 0⟩ 9 5).2.2.1 (by norm_num) 4 (by norm_num)
    norm_num at h
    exact h
  · exact (isInside_strict_disc ⟨5, 5, 0, 0, 0⟩ 5 5).2.2.2 rfl

/-- C2: `mousedown` scans rings from the last index down to 0 and starts
dragging the first (hence highest-index) ring containing the point; when no
ring contains the point the state is unchanged (so an `Idle` model stays
`Idle`). -/
theorem mousedown_selects_topmost (s : PuzzleState) (x y : ℚ) :
    ((∀ j c, s.circles.get? j = some c → c.isInside x y = false) →
      handleMouseDown s x y = s) ∧
    (∀ i c, s.circles.get? i = some c → c.isInside x y = true →
      (∀ j, i < j → ∀ c', s.circles.get? j = some c' → c'.isInside x y = false) →
      handleMouseDown s x y = { s with activeCircle := some i, isDragging := true }) :=
  ⟨handleMouseDown_of_miss s x y,
   fun i c hc hin hmax => handleMouseDown_of_hit s x y i c hc hin hmax⟩

/-- Witness for C2: two concentric rings both contain the shared center
`(200,200)`; `mousedown` there selects the inner ring (index 1). -/
theorem mousedown_selects_topmost_witness :
    handleMouseDown
        ⟨[⟨200, 200, 200, 0, 0⟩, ⟨200, 200, 100, 0, 0⟩], false, none, none⟩ 200 200 =
      ⟨[⟨200, 200, 200, 0, 0⟩, ⟨200, 200, 100, 0, 0⟩], true, some 1, none⟩ := by
  refine (mousedown_selects_topmost _ 200 200).2 1 ⟨200, 200, 100, 0, 0⟩ rfl
    (by norm_num [PuzzleCircle.isInside]) ?_
  intro j hj c' hc'
  rw [List.get?_eq_none.mpr (by simp only [List.length_cons, List.length_nil]; omega)] at hc'
  exact Option.noConfusion hc'

/-- C5: the first `mousemove` after a `mousedown` (dragging, no cached
cursor) only caches the move's x-coordinate; circles and every other field
are untouched. -/
theorem first_move_only_caches (fullRotation : ℝ) (s : PuzzleState) (x y : ℚ)
    (hdrag : s.isDragging = true) (hlast : s.lastCursorX = none) :
    handleMouseMove fullRotation s x y = { s with lastCursorX := some x } := by
  simp [handleMouseMove, hdrag, hlast]

/-- Witness for C5 at a concrete dragging state with no cached cursor. -/
theorem first_move_only_caches_witness :
    handleMouseMove (2 * Real.pi) ⟨[⟨1, 1, 1, 0, 0⟩], true, some 0, none⟩ 5 6 =
      ⟨[⟨1, 1, 1, 0, 0⟩], true, some 0, some 5⟩ :=
  first_move_only_caches (2 * Real.pi) _ 5 6 rfl rfl

/-- C6: `mouseup` from any state clears the drag flag and the cached cursor
while leaving the circles (hence every rotation) and the active index
unchanged; a following `mousemove` with no intervening `mousedown` is a
no-op. -/
theorem mouseup_resets (s : PuzzleState) :
    (handleMouseUp s).isDragging = false ∧
    (handleMouseUp s).lastCursorX = none ∧
    (handleMouseUp s).circles = s.circles ∧
    (handleMouseUp s).activeCircle = s.activeCircle ∧
    ∀ (fullRotation : ℝ) (x y : ℚ),
      handleMouseMove fullRotation (handleMouseUp s) x y = handleMouseUp s :=
  ⟨rfl, rfl, rfl, rfl, fun fullRotation x y =>
    handleMouseMove_not_dragging fullRotation (handleMouseUp s) x y rfl⟩

/-- C7: rotation accumulates additively without wraparound: two successive
`rotateCircle` calls equal one call with the summed delta, the final
rotation is `r + d1 + d2`, and the order of the deltas is irrelevant. -/
theorem rotateCircle_additive (c : PuzzleCircle) (d1 d2 : ℝ) :
    rotateCircle (rotateCircle c d1) d2 = rotateCircle c (d1 + d2) ∧
    (rotateCircle (rotateCircle c d1) d2).rotation = c.rotation + d1 + d2 ∧
    rotateCircle (rotateCircle c d1) d2 = rotateCircle (rotateCircle c d2) d1 := by
  refine ⟨?_, rfl, ?_⟩ <;>
    · simp only [rotateCircle, PuzzleCircle.mk.injEq, true_and]
      ring

/-- C9: a `mousedown` arriving while already dragging is not guarded: on a
hit it silently reassigns the active ring to the topmost containing ring,
the drag flag stays set, and neither the circles nor the cached cursor
position are touched. -/
theorem mousedown_while_dragging_reassigns (s : PuzzleState) (x y : ℚ) (i : Nat)
    (c : PuzzleCircle) (_hdrag : s.isDragging = true)
    (hc : s.circles.get? i = some c) (hin : c.isInside x y = true)
    (hmax : ∀ j, i < j → ∀ c', s.circles.get? j = some c' → c'.isInside x y = false) :
    (handleMouseDown s x y).isDragging = true ∧
    (handleMouseDown s x y).activeCircle = some i ∧
    (handleMouseDown s x y).circles = s.circles ∧
    (handleMouseDown s x y).lastCursorX = s.lastCursorX := by
  rw [handleMouseDown_of_hit s x y i c hc hin hmax]
  exact ⟨rfl, rfl, rfl, rfl⟩

/-- Witness for C9: while dragging ring 0 with cached cursor 77, a
`mousedown` at the shared center reassigns the drag to ring 1 and keeps the
cached cursor. -/
theorem mousedown_while_dragging_reassigns_witness :
    (handleMouseDown
        ⟨[⟨200, 200, 200, 0, 0⟩, ⟨200, 200, 100, 0, 0⟩], true, some 0, some 77⟩
        200 200).isDragging = true ∧
    (handleMouseDown
        ⟨[⟨200, 200, 200, 0, 0⟩, ⟨200, 200, 100, 0, 0⟩], true, some 0, some 77⟩
        200 200).activeCircle = some 1 ∧
    (handleMouseDown
        ⟨[⟨200, 200, 200, 0, 0⟩, ⟨200, 200, 100, 0, 0⟩], true, some 0, some 77⟩
        200 200).circles = [⟨200, 200, 200, 0, 0⟩, ⟨200, 200, 100, 0, 0⟩] ∧
    (handleMouseDown
        ⟨[⟨200, 200, 200, 0, 0⟩, ⟨200, 200, 100, 0, 0⟩], true, some 0, some 77⟩
        200 200).lastCursorX = some 77 := by
  refine mousedown_while_dragging_reassigns _ 200 200 1 ⟨200, 200, 100, 0, 0⟩ rfl rfl
    (by norm_num [PuzzleCircle.isInside]) ?_
  intro j hj c' hc'
  rw [List.get?_eq_none.mpr (by simp only [List.length_cons, List.length_nil]; omega)] at hc'
  exact Option.noConfusion hc'

/-- C1: while dragging with a cached cursor x, a `mousemove` to `(x', y')`
adds exactly `-(x' - cachedX) / ROTATION_SPEED` to the active ring's
rotation when `y'` is at or below the ring's center y, and exactly
`2π - (-(x' - cachedX) / ROTATION_SPEED)` when `y'` is strictly above it
(`FULL_ROTATION = Math.PI * 2` instantiated as `2 * Real.pi`). -/
theorem mousemove_applies_delta (s : PuzzleState) (x y lastX : ℚ) (i : Nat)
    (c : PuzzleCircle) (hdrag : s.isDragging = true)
    (hlast : s.lastCursorX = some lastX) (hact : s.activeCircle = some i)
    (hcirc : s.circles.get? i = some c) :
    (c.y ≤ y →
      (handleMouseMove (2 * Real.pi) s x y).circles.get? i =
        some { c with rotation :=
          c.rotation + -(((x - lastX) / ROTATION_SPEED : ℚ) : ℝ) }) ∧
    (y < c.y →
      (handleMouseMove (2 * Real.pi) s x y).circles.get? i =
        some { c with rotation :=
          c.rotation + (2 * Real.pi - -(((x - lastX) / ROTATION_SPEED : ℚ) : ℝ)) }) := by
  have hlen := get?_lt_length s.circles i c hcirc
  constructor
  · intro hy
    simp only [handleMouseMove, hdrag, Bool.not_true, Bool.false_eq_true, if_false,
      hlast, hact, hcirc]
    rw [if_neg (not_lt.mpr hy)]
    exact get?_set_self s.circles i _ hlen
  · intro hy
    simp only [handleMouseMove, hdrag, Bool.not_true, Bool.false_eq_true, if_false,
      hlast, hact, hcirc]
    rw [if_pos hy]
    exact get?_set_self s.circles i _ hlen

/-- Witness for C1: cached x = 100, move to x' = 80.  With the pointer below
the center (y' = 300 ≥ 200) the ring's rotation grows by
`-(80-100)/50 = 2/5 = 0.4`; with the pointer above the center (y' = 100 <
200) it grows by `2π - 0.4` instead. -/
theorem mousemove_applies_delta_witness :
    ((handleMouseMove (2 * Real.pi)
        ⟨[⟨200, 200, 200, 7, 0⟩], true, some 0, some 100⟩ 80 300).circles.get? 0 =
      some ⟨200, 200, 200, 7,
        (0 : ℝ) + -(((80 - 100) / ROTATION_SPEED : ℚ) : ℝ)⟩) ∧
    (-(((80 : ℚ) - 100) / ROTATION_SPEED) = (2 / 5 : ℚ)) ∧
    ((handleMouseMove (2 * Real.pi)
        ⟨[⟨200, 200, 200, 7, 0⟩], true, some 0, some 100⟩ 80 100).circles.get? 0 =
      some ⟨200, 200, 200, 7,
        (0 : ℝ) + (2 * Real.pi - -(((80 - 100) / ROTATION_SPEED : ℚ) : ℝ))⟩) := by
  refine ⟨?_, by norm_num [ROTATION_SPEED], ?_⟩
  · exact (mousemove_applies_delta ⟨[⟨200, 200, 200, 7, 0⟩], true, some 0, some 100⟩
      80 300 100 0 ⟨200, 200, 200, 7, 0⟩ rfl rfl rfl rfl).1 (by norm_num)
  · exact (mousemove_applies_delta ⟨[⟨200, 200, 200, 7, 0⟩], true, some 0, some 100⟩
      80 100 100 0 ⟨200, 200, 200, 7, 0⟩ rfl rfl rfl rfl).2 (by norm_num)

/-- C4: construction with viewport `(w, h)`, image `(iw, ih)` and ring count
`N ≥ 1` creates exactly `N` rings, all centered at `(w/2, h/2)`, ring `j`
having radius `maxRadius - j * (maxRadius / N)` where
`maxRadius = min(w, h, iw, ih) / 2`; ring 0 has radius exactly `maxRadius`,
and for positive dimensions the radii strictly decrease with the index. -/
theorem construction_layout (w h iw ih : ℚ) (N : Nat) (rots : Nat → ℝ) (img : Nat)
    (hN : 1 ≤ N) :
    ((initController w h iw ih N rots img).circles.length = N) ∧
    (∀ j, j < N →
      (initController w h iw ih N rots img).circles.get? j =
        some ⟨w / 2, h / 2,
          min (min (min w h) iw) ih / 2 -
            (j : ℚ) * (min (min (min w h) iw) ih / 2 / (N : ℚ)),
          img, rots j⟩) ∧
    ((initController w h iw ih N rots img).circles.get? 0 =
      some ⟨w / 2, h / 2, min (min (min w h) iw) ih / 2, img, rots 0⟩) ∧
    (0 < w → 0 < h → 0 < iw → 0 < ih →
      ∀ j c c', (initController w h iw ih N rots img).circles.get? j = some c →
        (initController w h iw ih N rots img).circles.get? (j + 1) = some c' →
        c'.radius < c.radius) := by
  have hcircles : (initController w h iw ih N rots img).circles
      = mkCircles (w / 2) (h / 2) img (min (min (min w h) iw) ih / 2 / (N : ℚ)) rots N
          (min (min (min w h) iw) ih / 2) 0 := rfl
  refine ⟨?_, ?_, ?_, ?_⟩
  · rw [hcircles, mkCircles_length]
  · intro j hj
    rw [hcircles, mkCircles_get? _ _ _ _ _ N _ 0 j hj, Nat.zero_add]
  · rw [hcircles, mkCircles_get? _ _ _ _ _ N _ 0 0 (by omega)]
    norm_num
  · intro hw hh hiw hih j c c' hc hc'
    have hj1 : j + 1 < N := by
      have hlt := get?_lt_length _ _ _ hc'
      rwa [hcircles, mkCircles_length] at hlt
    have hj : j < N := by omega
    rw [hcircles, mkCircles_get? _ _ _ _ _ N _ 0 j hj] at hc
    rw [hcircles, mkCircles_get? _ _ _ _ _ N _ 0 (j + 1) hj1] at hc'
    injection hc with hc
    injection hc' with hc'
    rw [← hc, ← hc']
    dsimp only
    have hmin : 0 < min (min (min w h) iw) ih :=
      lt_min (lt_min (lt_min hw hh) hiw) hih
    have hmaxR : 0 < min (min (min w h) iw) ih / 2 := by positivity
    have hNpos : (0 : ℚ) < (N : ℚ) := by
      exact_mod_cast Nat.lt_of_lt_of_le Nat.zero_lt_one hN
    have hstep : 0 < min (min (min w h) iw) ih / 2 / (N : ℚ) := div_pos hmaxR hNpos
    have hjcast : ((j : Nat) : ℚ) < ((j + 1 : Nat) : ℚ) := by
      push_cast
      linarith
    have := mul_lt_mul_of_pos_right hjcast hstep
    linarith

/-- Witness for C4: viewport 400×400, image 400×400, N = 5 give five rings
with radii `[200, 160, 120, 80, 40]` all centered at `(200, 200)`. -/
theorem construction_layout_witness :
    (initController 400 400 400 400 5 (fun _ => (0 : ℝ)) 0).circles.length = 5 ∧
    (initController 400 400 400 400 5 (fun _ => (0 : ℝ)) 0).circles.map
      PuzzleCircle.radius = [200, 160, 120, 80, 40] ∧
    (initController 400 400 400 400 5 (fun _ => (0 : ℝ)) 0).circles.map
      PuzzleCircle.x = [200, 200, 200, 200, 200] ∧
    (initController 400 400 400 400 5 (fun _ => (0 : ℝ)) 0).circles.map
      PuzzleCircle.y = [200, 200, 200, 200, 200] := by
  refine ⟨(construction_layout 400 400 400 400 5 (fun _ => 0) 0 (by norm_num)).1,
    ?_, ?_, ?_⟩ <;> norm_num [initController, mkCircles]

/-- C8: any sequence of pointer events preserves every circle's center x,
center y, radius and image handle, and the number of circles; only the
rotation field ever changes. -/
theorem events_mutate_only_rotation (fullRotation : ℝ) (s : PuzzleState)
    (es : List PuzzleEvent) :
    (processEvents fullRotation s es).circles.map ringShape = s.circles.map ringShape ∧
    (processEvents fullRotation s es).circles.length = s.circles.length := by
  refine ⟨processEvents_shape fullRotation es s, ?_⟩
  have h := congrArg List.length (processEvents_shape fullRotation es s)
  simpa using h

/-- C10: whenever the model is not dragging, the cached cursor position is
`none` — true at construction, preserved by every event handler, and hence
true after any event sequence from the initial state. -/
theorem no_stale_cursor_cache :
    (∀ (w h iw ih : ℚ) (N : Nat) (rots : Nat → ℝ) (img : Nat),
      (initController w h iw ih N rots img).isDragging = false →
      (initController w h iw ih N rots img).lastCursorX = none) ∧
    (∀ (fullRotation : ℝ) (s : PuzzleState) (e : PuzzleEvent),
      (s.isDragging = false → s.lastCursorX = none) →
      (step fullRotation s e).isDragging = false →
      (step fullRotation s e).lastCursorX = none) ∧
    (∀ (fullRotation : ℝ) (w h iw ih : ℚ) (N : Nat) (rots : Nat → ℝ) (img : Nat)
        (es : List PuzzleEvent),
      (processEvents fullRotation (initController w h iw ih N rots img) es).isDragging
        = false →
      (processEvents fullRotation (initController w h iw ih N rots img) es).lastCursorX
        = none) :=
  ⟨fun _ _ _ _ _ _ _ _ => rfl,
   cacheInv_step,
   fun fullRotation _ _ _ _ _ _ _ es =>
     cacheInv_processEvents fullRotation es _ (fun _ => rfl)⟩

/-- Witness for C10: a `mouseup` on a dragging state with a cached cursor
leaves no stale cache, and a full drag gesture (down on a ring, two moves,
up) from a freshly constructed puzzle ends with the cache cleared. -/
theorem no_stale_cursor_cache_witness :
    (step 0 ⟨[], true, none, some 5⟩ PuzzleEvent.mouseup).lastCursorX = none ∧
    (processEvents (2 * Real.pi) (initController 400 400 400 400 5 (fun _ => 0) 0)
        [PuzzleEvent.mousedown 200 200, PuzzleEvent.mousemove 150 150,
         PuzzleEvent.mousemove 140 150, PuzzleEvent.mouseup]).lastCursorX = none := by
  constructor
  · exact no_stale_cursor_cache.2.1 0 ⟨[], true, none, some 5⟩ PuzzleEvent.mouseup
      (fun hcontra => Bool.noConfusion hcontra) rfl
  · refine no_stale_cursor_cache.2.2 (2 * Real.pi) 400 400 400 400 5 (fun _ => 0) 0 _ ?_
    norm_num [processEvents, step, handleMouseDown, handleMouseUp, handleMouseMove,
      findClickedAux, initController, mkCircles, rotateCircle, PuzzleCircle.isInside,
      ROTATION_SPEED]

end Puzzle
